import Mathlib

/-!
Verification development for the `tracing-modality` ingest pipeline
(repository `auxoncorp/modality-tracing-rs`).

The definitions below are a shallow embedding of the core crate revision,
the one under `src/tracing-modality/src/common/`:

* `timeline_lru.rs`   — the `TimelineLru` residency cache;
* `layer.rs`          — the producer front end (`handle_message`, the
                        `WARN_LATCH` one-shot warning latch, field capture);
* `ingest.rs`         — the consumer (`handler_task`, `handle_packet`,
                        `pack_common_attrs`, the attribute-key interner);
* `attr_handlers.rs`  — the attribute-handler table and default handlers;
* `options.rs`        — the `Options` configuration structure.

Machine integers are modelled as `Nat`/`Int` with explicit bounds where
the source narrows (`u64`, `i64`, `i128`).  Wall-clock and monotonic
clock reads are passed in as explicit parameters.  `f64` payloads are
carried as opaque bit patterns: the source never computes on float
values, it only moves them around.

Attribute keys: the remote session interns key strings into opaque
handles (`AttrKey`).  `get_or_create_event_attr_key` (embedded below as
`InternState.getOrCreateEventAttrKey`) is a function of the normalized
key string, so throughout the record-translation embedding an attribute
is identified by its normalized key string; the interner itself is
embedded separately, with the handle cache and the session-request log.
-/

namespace ModalityTracing

/-- Bit pattern of an IEEE-754 binary64 value.  The pipeline never
computes on `f64` payloads (`tracing_value_to_attr_val` passes them
through), so the payload is opaque data. -/
structure Float64 where
  bits : Nat
deriving DecidableEq, Repr

/-- A 128-bit UUID value (`uuid::Uuid` / `modality_ingest_client::types::Uuid`). -/
structure Uuid where
  val : Nat
deriving DecidableEq, Repr

/-- `modality_ingest_client::types::TimelineId`: a newtype over a UUID. -/
structure TimelineId where
  uuid : Uuid
deriving DecidableEq, Repr

/-- Largest `u64` value. -/
def u64Max : Nat := 2 ^ 64 - 1

/-- Largest `i64` value. -/
def i64Max : Int := 2 ^ 63 - 1

/-- Smallest `i64` value. -/
def i64Min : Int := -(2 ^ 63)

/-- `TracingValue` from `common/layer.rs`: the typed field bag entries
produced by the `RecordMapBuilder` visitor. -/
inductive TracingValue
  | str (s : String)
  | f64 (n : Float64)
  | i64 (n : Int)
  | u64 (n : Nat)
  | bool (b : Bool)
deriving DecidableEq, Repr

/-- `modality_ingest_client::types::AttrVal`: the remote attribute value union. -/
inductive AttrVal
  | str (s : String)
  | integer (n : Int)
  | bigInt (n : Int)
  | float (n : Float64)
  | bool (b : Bool)
  | timestamp (ns : Nat)
  | logicalTime (t : List Nat)
  | timelineId (t : TimelineId)
deriving DecidableEq, Repr

/-- Modelled from the external `modality_ingest_client` crate (not under
`src/`): `BigInt::new_attr_val(i128)` produces `AttrVal::Integer` when the
value fits in an `i64` and `AttrVal::BigInt` otherwise. -/
def bigIntNewAttrVal (n : Int) : AttrVal :=
  if i64Min ≤ n ∧ n ≤ i64Max then .integer n else .bigInt n

/-- `tracing_value_to_attr_val` from `common/ingest.rs`. -/
def tracing_value_to_attr_val : TracingValue → AttrVal
  | .str s => .str s
  | .f64 n => .float n
  | .i64 n => .integer n
  | .u64 n => bigIntNewAttrVal n
  | .bool b => .bool b

/-- Model of Rust `str::starts_with` on whole strings: the pattern's
characters are a prefix of the subject's characters. -/
def strStartsWith (s pre : String) : Bool :=
  pre.data.isPrefixOf s.data

/-- Little-endian bytes of a `u64` (`u64::to_ne_bytes` on a little-endian
host, as used for v5 timeline-id derivation). -/
def u64ToNeBytes (n : Nat) : List Nat :=
  [n % 256, n / 256 % 256, n / 256 ^ 2 % 256, n / 256 ^ 3 % 256,
   n / 256 ^ 4 % 256, n / 256 ^ 5 % 256, n / 256 ^ 6 % 256, n / 256 ^ 7 % 256]

/-- Modelled from the spec: `uuid::Uuid::new_v5` from the external `uuid`
crate (not under `src/`) — a namespaced v5 UUID, SHA-1 over
namespace‖name-bytes, truncated to 128 bits.  The SHA-1 compression
itself is external to the repository; this model stands in for it as a
fixed pure function of the namespace and the name bytes, which is all
the claims use (the code under `src/` treats the derivation as opaque). -/
def uuidNewV5 (ns : Uuid) (name : List Nat) : Uuid :=
  ⟨(name.foldl (fun acc b => (acc * 256 + b % 256) * 31 + 7) ns.val) % 2 ^ 128⟩

/- ----------------------------------------------------------------- -/
/- `common/timeline_lru.rs` — the TimelineLru residency cache          -/
/- ----------------------------------------------------------------- -/

/-- One slot of the LRU cache (`LruItem`).  `last_use` is a monotonic
clock reading (`Instant`), modelled as a `Nat`. -/
structure LruItem where
  user_id : Nat
  timeline_id : TimelineId
  last_use : Nat
deriving DecidableEq, Repr

/-- `LruError` from `timeline_lru.rs`. -/
inductive LruError
  | doesntExistNotFull
  | doesntExistReplace (idx : Nat)
deriving DecidableEq, Repr

/-- `LruToken`: the opaque miss token carried from `query` to `insert`. -/
structure LruToken where
  val : LruError
deriving DecidableEq, Repr

/-- `TimelineLru`: the backing vector plus its capacity.
`Vec::with_capacity(cap)` is modelled as capacity exactly `cap`
(`data.capacity()` in the source's fullness check). -/
structure TimelineLru where
  cap : Nat
  data : List LruItem
deriving DecidableEq, Repr

/-- `TimelineLru::with_capacity`. -/
def TimelineLru.with_capacity (cap : Nat) : TimelineLru :=
  ⟨cap, []⟩

/-- The not-full branch of `query`: `self.data.iter_mut().find(|li| li.user_id == user_id)`,
touching `last_use` on the hit.  Returns the updated vector on a hit. -/
def findTouch (uid now : Nat) : List LruItem → Option (TimelineId × List LruItem)
  | [] => none
  | li :: rest =>
    if li.user_id = uid then
      some (li.timeline_id, { li with last_use := now } :: rest)
    else
      match findTouch uid now rest with
      | some (tid, rest2) => some (tid, li :: rest2)
      | none => none

/-- The full branch of `query`: scan with early return on a hit (touching
`last_use`), otherwise track the oldest slot seen.  Mirrors the source's
loop with its running `(oldest_time, oldest_slot)` accumulator; the
update condition is the source's `oldest_time >= li.last_use`.
Returns the (possibly updated) suffix, the hit result, and the final
oldest slot. -/
def queryFullAux (uid now : Nat) :
    List LruItem → Nat → Nat → Nat → List LruItem × Option TimelineId × Nat
  | [], _idx, _oldestTime, oldestSlot => ([], none, oldestSlot)
  | li :: rest, idx, oldestTime, oldestSlot =>
    if li.user_id = uid then
      ({ li with last_use := now } :: rest, some li.timeline_id, oldestSlot)
    else
      let acc :=
        if oldestTime ≥ li.last_use then (li.last_use, idx) else (oldestTime, oldestSlot)
      let r := queryFullAux uid now rest (idx + 1) acc.1 acc.2
      (li :: r.1, r.2.1, r.2.2)

/-- `TimelineLru::query`.  `now` models the `Instant::now()` reads (the
initial `oldest_time` and the `last_use` touch on a hit). -/
def TimelineLru.query (lru : TimelineLru) (uid now : Nat) :
    TimelineLru × Except LruToken TimelineId :=
  let full := lru.data.length ≥ lru.cap
  if ¬full then
    match findTouch uid now lru.data with
    | some (tid, data2) => (⟨lru.cap, data2⟩, .ok tid)
    | none => (lru, .error ⟨.doesntExistNotFull⟩)
  else
    match queryFullAux uid now lru.data 0 now 0 with
    | (data2, some tid, _) => (⟨lru.cap, data2⟩, .ok tid)
    | (_, none, slot) => (lru, .error ⟨.doesntExistReplace slot⟩)

/-- `TimelineLru::insert`.  The replace arm is `data.get_mut(idx)` plus a
swap: `List.set` is the identity when `idx` is out of bounds, exactly the
source's silent no-op. -/
def TimelineLru.insert (lru : TimelineLru) (uid : Nat) (tid : TimelineId)
    (tok : LruToken) (now : Nat) : TimelineLru :=
  let item : LruItem := ⟨uid, tid, now⟩
  match tok.val with
  | .doesntExistNotFull => ⟨lru.cap, lru.data ++ [item]⟩
  | .doesntExistReplace idx => ⟨lru.cap, lru.data.set idx item⟩

/-- One round of the two-phase protocol as used by `bind_user_timeline`:
query; on a miss, insert with the token just returned. -/
def TimelineLru.queryInsert (lru : TimelineLru) (uid : Nat) (tid : TimelineId)
    (now : Nat) : TimelineLru :=
  match lru.query uid now with
  | (lru2, .ok _) => lru2
  | (lru2, .error tok) => lru2.insert uid tid tok now

/-- A whole sequence of protocol rounds. -/
def TimelineLru.runProtocol (lru : TimelineLru) : List (Nat × TimelineId × Nat) → TimelineLru
  | [] => lru
  | (uid, tid, now) :: ops => (lru.queryInsert uid tid now).runProtocol ops

/- ----------------------------------------------------------------- -/
/- `common/layer.rs` — producer front end                              -/
/- ----------------------------------------------------------------- -/

/-- `RecordMap = HashMap<String, TracingValue>`, modelled as an
association list with pairwise-distinct keys (the visitor's `insert`
overwrites, so a built map never holds duplicate keys). -/
abbrev RecordMap := List (String × TracingValue)

/-- `HashMap::remove` on a `RecordMap`: returns the removed value and the
map without its entry. -/
def removeRecord : RecordMap → String → Option TracingValue × RecordMap
  | [], _ => (none, [])
  | (k, v) :: rest, key =>
    if k = key then (some v, rest)
    else
      let r := removeRecord rest key
      (r.1, (k, v) :: r.2)

/-- `HashMap::get` on a `RecordMap` (by key, no removal). -/
def getRecord : RecordMap → String → Option TracingValue
  | [], _ => none
  | (k, v) :: rest, key => if k = key then some v else getRecord rest key

/-- The state of the `WARN_LATCH` one-shot warning machinery in
`common/layer.rs`, together with the number of warning lines printed so
far on stderr. -/
structure WarnState where
  latch : Bool
  printed : Nat
deriving DecidableEq, Repr

/-- The identifier-missing branch of `handle_message`
(`common/layer.rs:55-71`), executed when `TIMELINE_IDENTIFIER` is unset:

    let has_warned = WARN_LATCH
        .compare_exchange(false, true, Relaxed, Relaxed)
        .is_ok();
    if !has_warned { eprintln!("warning: ..."); }

`compare_exchange(false, true)` succeeds exactly when the latch is
`false`, and writes `true` in that case; the message is then dropped
(`return`). -/
def warnStep (s : WarnState) : WarnState :=
  let has_warned := s.latch = false
  let s := { s with latch := true }
  if ¬has_warned then { s with printed := s.printed + 1 } else s

/-- Iterating `handle_message` with the identifier unset `n` times. -/
def warnAfter (n : Nat) : WarnState :=
  Nat.rec ⟨false, 0⟩ (fun _ s => warnStep s) n

/- ----------------------------------------------------------------- -/
/- `common/ingest.rs` — static metadata, messages                      -/
/- ----------------------------------------------------------------- -/

/-- `tracing_core::Level`, as displayed by `format!("{}", level)`. -/
inductive Level
  | trace | debug | info | warn | error
deriving DecidableEq, Repr

/-- `Display` for `Level` ("TRACE", "DEBUG", ...). -/
def Level.display : Level → String
  | .trace => "TRACE"
  | .debug => "DEBUG"
  | .info => "INFO"
  | .warn => "WARN"
  | .error => "ERROR"

/-- The fields of `tracing_core::Metadata` the pipeline reads. -/
structure Metadata where
  name : String
  level : Level
  module_path : Option String
  file : Option String
  line : Option Nat
deriving DecidableEq, Repr

/-- Local span id (`SpanId = NonZeroU64`); the claims never depend on the
non-zero invariant, it is carried as a plain `Nat`. -/
abbrev SpanId := Nat

/-- `Message` from `common/ingest.rs`. -/
inductive Message
  | newSpan (id : SpanId) (metadata : Metadata) (records : RecordMap)
  | record (span : SpanId) (records : RecordMap)
  | recordFollowsFrom (span follows : SpanId)
  | event (metadata : Metadata) (records : RecordMap)
  | enter (span : SpanId)
  | exit (span : SpanId)
  | close (span : SpanId)
  | idChange (old new : SpanId)
deriving DecidableEq, Repr

/-- `WrappedMessage`: the queued envelope. `tick` is
`Duration::as_nanos()`, a `u128` modelled as `Nat`. -/
structure WrappedMessage where
  message : Message
  tick : Nat
  timeline_name : String
  user_timeline_id : Nat
deriving DecidableEq, Repr

/-- Which messages make `handle_packet` transmit an event to the session
(`client.event(...)` is reached). -/
def Message.emitsEvent : Message → Bool
  | .newSpan _ _ _ => true
  | .event _ _ => true
  | .enter _ => true
  | .exit _ => true
  | _ => false

/-- Rust `format!("{:?}", value)` on a `&TracingValue` (derived `Debug`),
used by the `NewSpan` arm to build the stored span name.  The numeral
rendering of the opaque `f64` payload is abstracted by printing its bit
pattern; no claim depends on the rendered text. -/
def debugFormat : TracingValue → String
  | .str s => "String(" ++ reprStr s ++ ")"
  | .f64 n => "F64(" ++ reprStr n.bits ++ ")"
  | .i64 n => "I64(" ++ reprStr n ++ ")"
  | .u64 n => "U64(" ++ reprStr n ++ ")"
  | .bool b => "Bool(" ++ reprStr b ++ ")"

/- ----------------------------------------------------------------- -/
/- `common/ingest.rs` — attribute-key interner                         -/
/- ----------------------------------------------------------------- -/

/-- The event-key normalization applied by `get_or_create_event_attr_key`:
prefix with `event.` unless the key already starts with it. -/
def normalizeEventKey (key : String) : String :=
  if strStartsWith key "event." then key else "event." ++ key

/-- The interner caches of `ModalityIngest` plus a model of the remote
session: `nextHandle` is the next fresh handle the session hands out, and
`requested` logs every `client.attr_key(...)` round trip, in order. -/
structure InternState where
  event_keys : List (String × Nat)
  timeline_keys : List (String × Nat)
  nextHandle : Nat
  requested : List String
deriving DecidableEq, Repr

/-- Association-list lookup (`HashMap::get`). -/
def lookupAssoc : List (String × Nat) → String → Option Nat
  | [], _ => none
  | (k, v) :: rest, key => if k = key then some v else lookupAssoc rest key

/-- `get_or_create_timeline_attr_key`: cache hit returns the cached
handle; a miss requests a handle from the session and caches it. -/
def InternState.getOrCreateTimelineAttrKey (st : InternState) (key : String) :
    Nat × InternState :=
  match lookupAssoc st.timeline_keys key with
  | some id => (id, st)
  | none =>
    let h := st.nextHandle
    (h, { st with
            timeline_keys := (key, h) :: st.timeline_keys,
            nextHandle := h + 1,
            requested := st.requested ++ [key] })

/-- `get_or_create_event_attr_key`: normalize to the `event.` prefix,
then as the timeline version. -/
def InternState.getOrCreateEventAttrKey (st : InternState) (key : String) :
    Nat × InternState :=
  let key := normalizeEventKey key
  match lookupAssoc st.event_keys key with
  | some id => (id, st)
  | none =>
    let h := st.nextHandle
    (h, { st with
            event_keys := (key, h) :: st.event_keys,
            nextHandle := h + 1,
            requested := st.requested ++ [key] })

/- ----------------------------------------------------------------- -/
/- `common/attr_handlers.rs` — the attribute-handler table             -/
/- ----------------------------------------------------------------- -/

/-- `HandlerFunc`: `(tracing_key, tracing_val, run_id) -> (remote_key, remote_val)`. -/
def HandlerFunc := String → TracingValue → Uuid → String × AttrVal

/-- `attr_handlers::timeline_id`: v5 derivation of a remote timeline id
from the run id and a user timeline id. -/
def timeline_id (run_id : Uuid) (user_timeline_id : Nat) : TimelineId :=
  ⟨uuidNewV5 run_id (u64ToNeBytes user_timeline_id)⟩

/-- `attr_handlers::timestamp_inner`: promote non-negative integers and
in-range big integers to `Timestamp`; pass everything else through. -/
def timestamp_inner (tracing_val : TracingValue) : AttrVal :=
  match tracing_value_to_attr_val tracing_val with
  | .integer i => if 0 ≤ i then .timestamp i.toNat else .integer i
  | .bigInt i => if 0 ≤ i ∧ i ≤ (u64Max : Int) then .timestamp i.toNat else .bigInt i
  | .timestamp t => .timestamp t
  | x => x

/-- `attr_handlers::timestamp`. -/
def timestampHandler : HandlerFunc :=
  fun _ v _ => ("event.timestamp", timestamp_inner v)

/-- `attr_handlers::remote_timestamp`. -/
def remote_timestamp : HandlerFunc :=
  fun _ v _ => ("event.interaction.remote_timestamp", timestamp_inner v)

/-- `attr_handlers::remote_timeline_id`: a `u64` value is reinterpreted
as a user timeline id and v5-derived; other values fall back to plain
conversion. -/
def remote_timeline_id : HandlerFunc :=
  fun _ v run_id =>
    ("event.interaction.remote_timeline_id",
     match v with
     | .u64 id => .timelineId (timeline_id run_id id)
     | other => tracing_value_to_attr_val other)

/-- `attr_handlers::name`. -/
def nameHandler : HandlerFunc :=
  fun _ v _ => ("event.name", tracing_value_to_attr_val v)

/-- `attr_handlers::severity`. -/
def severityHandler : HandlerFunc :=
  fun _ v _ => ("event.severity", tracing_value_to_attr_val v)

/-- `attr_handlers::source_module`. -/
def source_module : HandlerFunc :=
  fun _ v _ => ("event.source.module", tracing_value_to_attr_val v)

/-- `attr_handlers::source_file`. -/
def source_file : HandlerFunc :=
  fun _ v _ => ("event.source.file", tracing_value_to_attr_val v)

/-- `attr_handlers::event_fallback`: the unconfigurable fallback rule. -/
def event_fallback (tracing_key : String) (tracing_val : TracingValue) :
    String × AttrVal :=
  (normalizeEventKey tracing_key, tracing_value_to_attr_val tracing_val)

/-- `AttributeHandler`: a key text plus the handler invoked on an exact
key match. -/
structure AttributeHandler where
  key : String
  handler : HandlerFunc

/-- `DEFAULT_HANDLERS` from `common/attr_handlers.rs`. -/
def DEFAULT_HANDLERS : List AttributeHandler :=
  [⟨"timestamp", timestampHandler⟩,
   ⟨"interaction.remote_timestamp", remote_timestamp⟩,
   ⟨"interaction.remote_timeline_id", remote_timeline_id⟩,
   ⟨"name", nameHandler⟩,
   ⟨"message", nameHandler⟩,
   ⟨"severity", severityHandler⟩,
   ⟨"source.module", source_module⟩,
   ⟨"source.file", source_file⟩]

/-- The dispatch documented by `common/attr_handlers.rs`: on an exact
key-text match the matching handler is invoked and its pair used,
otherwise `event_fallback`.  (The module doc: "Handlers are matched on a
SPECIFIC key text. If a matching key text is found, the provided handler
will be called, will replace the key and value of the data reported by
`tracing`.")  This is the documented behavior against which the live
translation path is compared; the live path is `packCommonAttrs` below. -/
def documentedHandlerDispatch (handlers : List AttributeHandler)
    (key : String) (v : TracingValue) (run_id : Uuid) : String × AttrVal :=
  match handlers.find? (fun h => h.key = key) with
  | some h => h.handler key v run_id
  | none => event_fallback key v

/- ----------------------------------------------------------------- -/
/- `common/options.rs` — Options                                       -/
/- ----------------------------------------------------------------- -/

/-- `Options` (`common/options.rs:52-60`).  `server_addr` and the
timeline-identifier callback are omitted: no claim touches them and they
are IO-bound. -/
structure Options where
  auth : Option (List Nat)
  metadata : List (String × AttrVal)
  lru_cache_size : Nat
  attribute_handlers : List AttributeHandler

/-- `Options::new` (auth resolution from the environment is abstracted as
a parameter). -/
def Options.new (auth : Option (List Nat)) : Options :=
  { auth := auth
    metadata := []
    lru_cache_size := 64
    attribute_handlers := DEFAULT_HANDLERS }

/-- `Options::add_metadata`: the key is prefixed with `timeline.` unless
already prefixed. -/
def Options.add_metadata (opts : Options) (key : String) (value : AttrVal) : Options :=
  let key := if strStartsWith key "timeline." then key else "timeline." ++ key
  { opts with metadata := opts.metadata ++ [(key, value)] }

/- ----------------------------------------------------------------- -/
/- `common/ingest.rs` — helpers for the manual retyping blocks         -/
/- ----------------------------------------------------------------- -/

/-- The manual timestamp retyping repeated at `common/ingest.rs:698-705`
and `common/ingest.rs:717-724`: non-negative `Integer` and in-`u64`-range
`BigInt` become `Timestamp`, a `Timestamp` stays, anything else passes
through unchanged. -/
def retypeTimestamp : AttrVal → AttrVal
  | .integer i => if 0 ≤ i then .timestamp i.toNat else .integer i
  | .bigInt i => if 0 ≤ i ∧ i ≤ (u64Max : Int) then .timestamp i.toNat else .bigInt i
  | .timestamp t => .timestamp t
  | x => x

/-- Value of one hexadecimal digit. -/
def hexDigitVal (c : Char) : Option Nat :=
  if '0' ≤ c ∧ c ≤ '9' then some (c.toNat - '0'.toNat)
  else if 'a' ≤ c ∧ c ≤ 'f' then some (c.toNat - 'a'.toNat + 10)
  else if 'A' ≤ c ∧ c ≤ 'F' then some (c.toNat - 'A'.toNat + 10)
  else none

/-- Accumulate hex digits left to right. -/
def hexFold : List Char → Option Nat → Option Nat
  | [], acc => acc
  | c :: cs, acc =>
    match acc, hexDigitVal c with
    | some a, some d => hexFold cs (some (a * 16 + d))
    | _, _ => none

/-- Modelled from the external `uuid` crate (not under `src/`):
`Uuid::from_str` on the canonical hyphenated (8-4-4-4-12) and the plain
32-hex-digit renderings; other inputs are rejected.  Only the
`interaction.remote_timeline_id` string path of `pack_common_attrs` uses
it, and no claim exercises a string that parses. -/
def uuidFromString (s : String) : Option Nat :=
  let chars := s.data
  if chars.length = 36 then
    match chars.splitAt 8 with
    | (g1, rest) =>
      match rest with
      | '-' :: rest =>
        match rest.splitAt 4 with
        | (g2, rest) =>
          match rest with
          | '-' :: rest =>
            match rest.splitAt 4 with
            | (g3, rest) =>
              match rest with
              | '-' :: rest =>
                match rest.splitAt 4 with
                | (g4, rest) =>
                  match rest with
                  | '-' :: g5 => hexFold (g1 ++ g2 ++ g3 ++ g4 ++ g5) (some 0)
                  | _ => none
              | _ => none
          | _ => none
      | _ => none
  else if chars.length = 32 then
    hexFold chars (some 0)
  else
    none

/- ----------------------------------------------------------------- -/
/- `common/ingest.rs` — consumer state and record translation          -/
/- ----------------------------------------------------------------- -/

/-- The consumer-owned state of `ModalityIngest` (`common/ingest.rs:160-172`).
The session handle and the interner caches are embedded separately
(`InternState`); kept here are the translation-relevant fields.  Note:
the struct has no attribute-handler field — `async_connect` does not keep
`options.attribute_handlers`. -/
structure ModalityIngestState where
  global_metadata : List (String × AttrVal)
  span_names : List (SpanId × String)
  run_id : Uuid
  timeline_map : TimelineLru

/-- The state construction inside `async_connect`
(`common/ingest.rs:190-234`): a fresh `run_id` is appended to the
metadata as `timeline.run_id`, `options.metadata` becomes
`global_metadata`, the LRU gets `options.lru_cache_size` slots — and
`options.attribute_handlers` is dropped. -/
def ModalityIngestState.ofOptions (opts : Options) (run_id : Uuid)
    (run_id_text : String) : ModalityIngestState :=
  let opts := opts.add_metadata "run_id" (.str run_id_text)
  { global_metadata := opts.metadata
    span_names := []
    run_id := run_id
    timeline_map := .with_capacity opts.lru_cache_size }

/-- Association-list helpers for the consumer's span-name table
(`span_names : HashMap<NonZeroU64, String>`). -/
def spanNamesGet : List (SpanId × String) → SpanId → Option String
  | [], _ => none
  | (k, v) :: rest, key => if k = key then some v else spanNamesGet rest key

/-- `HashMap::insert` on the span-name table (overwrite semantics). -/
def spanNamesInsert (m : List (SpanId × String)) (key : SpanId) (v : String) :
    List (SpanId × String) :=
  match m with
  | [] => [(key, v)]
  | (k, w) :: rest =>
    if k = key then (key, v) :: rest else (k, w) :: spanNamesInsert rest key v

/-- `HashMap::remove` on the span-name table. -/
def spanNamesRemove : List (SpanId × String) → SpanId → List (SpanId × String)
  | [], _ => []
  | (k, w) :: rest, key =>
    if k = key then rest else (k, w) :: spanNamesRemove rest key

/-- The name lookup of `pack_common_attrs`:
`records.remove("name").or_else(|| records.remove("message"))` — the
`message` removal only happens when no `name` field exists. -/
def nameStepF (records : RecordMap) : Option TracingValue × RecordMap :=
  match removeRecord records "name" with
  | (some v, r) => (some v, r)
  | (none, r) => removeRecord r "message"

/-- The `event.source.module` push (only when a value is available). -/
def moduleAttrs (v : Option AttrVal) : List (String × AttrVal) :=
  match v with
  | some v => [("event.source.module", v)]
  | none => []

/-- The `event.source.file` push. -/
def fileAttrs (v : Option AttrVal) : List (String × AttrVal) :=
  match v with
  | some v => [("event.source.file", v)]
  | none => []

/-- The `event.source.line` push. -/
def lineAttrs (v : Option AttrVal) : List (String × AttrVal) :=
  match v with
  | some v => [("event.source.line", v)]
  | none => []

/-- The guarded tick push: `if let Ok(tick) = u64::try_from(nanos)` —
only during the first ~5.8 centuries of runtime. -/
def tickAttrs (tick : Nat) : List (String × AttrVal) :=
  if tick ≤ u64Max then [("event.internal.rs.tick", .logicalTime [tick])] else []

/-- The manual `interaction.remote_timeline_id` retyping
(`common/ingest.rs:670-691`): a string value parsing as a UUID becomes a
`TimelineId`; every other value — integers included — passes through
unchanged. -/
def rtlAttrs (v : Option AttrVal) : List (String × AttrVal) :=
  match v with
  | some (.str s) =>
    match uuidFromString s with
    | some u => [("event.interaction.remote_timeline_id", .timelineId ⟨⟨u⟩⟩)]
    | none => [("event.interaction.remote_timeline_id", .str s)]
  | some v => [("event.interaction.remote_timeline_id", v)]
  | none => []

/-- The manual `interaction.remote_timestamp` retyping. -/
def rtsAttrs (v : Option AttrVal) : List (String × AttrVal) :=
  match v with
  | some v => [("event.interaction.remote_timestamp", retypeTimestamp v)]
  | none => []

/-- The `event.timestamp` push: a captured `timestamp` field is retyped;
otherwise the wall clock at translation time is used when readable and
in `u64` range. -/
def tsAttrs (v : Option AttrVal) (wallClock : Option Nat) : List (String × AttrVal) :=
  match v with
  | some v => [("event.timestamp", retypeTimestamp v)]
  | none =>
    match wallClock with
    | some w => if w ≤ u64Max then [("event.timestamp", .timestamp w)] else []
    | none => []

/-- The residual-record flush: every remaining captured field goes out
under its `event.`-normalized key. -/
def residualAttrs (records : RecordMap) : List (String × AttrVal) :=
  records.map (fun kv => (normalizeEventKey kv.1, tracing_value_to_attr_val kv.2))

/-- `pack_common_attrs` (`common/ingest.rs:597-759`), producing the
pushed `(key, value)` pairs in source order.  Attributes are identified
by their normalized key strings (see the header note).  `tick` is the
envelope tick in nanoseconds; `wallClock` is the
`SystemTime::now().duration_since(UNIX_EPOCH)` read at translation time
(`none` when the clock read fails). -/
def packCommonAttrs (metadata : Metadata) (records : RecordMap) (tick : Nat)
    (wallClock : Option Nat) : List (String × AttrVal) :=
  let nameStep := nameStepF records
  let nameVal := (nameStep.1.map tracing_value_to_attr_val).getD (.str metadata.name)
  let records := nameStep.2
  let severityStep := removeRecord records "severity"
  let severityVal := (severityStep.1.map tracing_value_to_attr_val).getD
    (.str metadata.level.display.toLower)
  let records := severityStep.2
  let moduleStep := removeRecord records "source.module"
  let moduleVal :=
    (moduleStep.1.map tracing_value_to_attr_val).orElse
      (fun _ => metadata.module_path.map AttrVal.str)
  let records := moduleStep.2
  let fileStep := removeRecord records "source.file"
  let fileVal :=
    (fileStep.1.map tracing_value_to_attr_val).orElse
      (fun _ => metadata.file.map AttrVal.str)
  let records := fileStep.2
  let lineStep := removeRecord records "source.line"
  let lineVal :=
    (lineStep.1.map tracing_value_to_attr_val).orElse
      (fun _ => metadata.line.map (fun l => AttrVal.integer (l : Int)))
  let records := lineStep.2
  let rtlStep := removeRecord records "interaction.remote_timeline_id"
  let records := rtlStep.2
  let rtsStep := removeRecord records "interaction.remote_timestamp"
  let records := rtsStep.2
  let tsStep := removeRecord records "timestamp"
  let records := tsStep.2
  [("event.name", nameVal), ("event.severity", severityVal)]
  ++ moduleAttrs moduleVal
  ++ fileAttrs fileVal
  ++ lineAttrs lineVal
  ++ tickAttrs tick
  ++ rtlAttrs (rtlStep.1.map tracing_value_to_attr_val)
  ++ rtsAttrs (rtsStep.1.map tracing_value_to_attr_val)
  ++ tsAttrs (tsStep.1.map tracing_value_to_attr_val) wallClock
  ++ residualAttrs records

/-- `handle_packet` (`common/ingest.rs:351-554`), minus the timeline
binding and the network send: returns the updated span-name table and,
when the message transmits, the packed attribute list handed to
`client.event(tick, ...)`. -/
def handlePacketAttrs (st : ModalityIngestState) (msg : Message) (tick : Nat)
    (wallClock : Option Nat) :
    ModalityIngestState × Option (List (String × AttrVal)) :=
  match msg with
  | .newSpan id metadata records =>
    let nameOpt :=
      match getRecord records "name" with
      | some v => some v
      | none => getRecord records "message"
    let name :=
      match nameOpt with
      | some v => debugFormat v
      | none => metadata.name
    let st := { st with span_names := spanNamesInsert st.span_names id name }
    let kindStep := removeRecord records "modality.kind"
    let kind := (kindStep.1.map tracing_value_to_attr_val).getD (.str "span:defined")
    let sidStep := removeRecord kindStep.2 "modality.span_id"
    let sid := (sidStep.1.map tracing_value_to_attr_val).getD
      (bigIntNewAttrVal (id : Int))
    (st, some ([("event.name", .str name),
                ("event.internal.rs.kind", kind),
                ("event.internal.rs.span_id", sid)]
               ++ packCommonAttrs metadata sidStep.2 tick wallClock))
  | .record _ _ => (st, none)
  | .recordFollowsFrom _ _ => (st, none)
  | .event metadata records =>
    let kindStep := removeRecord records "modality.kind"
    let kind := (kindStep.1.map tracing_value_to_attr_val).getD (.str "event")
    (st, some (("event.internal.rs.kind", kind)
               :: packCommonAttrs metadata kindStep.2 tick wallClock))
  | .enter span =>
    let nameAttrs :=
      match spanNamesGet st.span_names span with
      | some n => [("event.name", AttrVal.str ("enter: " ++ n))]
      | none => []
    (st, some (nameAttrs
               ++ [("event.internal.rs.kind", .str "span:enter"),
                   ("event.internal.rs.span_id", bigIntNewAttrVal (span : Int))]
               ++ tickAttrs tick))
  | .exit span =>
    let nameAttrs :=
      match spanNamesGet st.span_names span with
      | some n => [("event.name", AttrVal.str ("exit: " ++ n))]
      | none => []
    (st, some (nameAttrs
               ++ [("event.internal.rs.kind", .str "span:exit"),
                   ("event.internal.rs.span_id", bigIntNewAttrVal (span : Int))]
               ++ tickAttrs tick))
  | .close span =>
    ({ st with span_names := spanNamesRemove st.span_names span }, none)
  | .idChange old new =>
    match spanNamesGet st.span_names old with
    | some n => ({ st with span_names := spanNamesInsert st.span_names new n }, none)
    | none => (st, none)

/-- First attribute value carried under a key, if any
(duplicate keys are possible; the reserved attributes are always pushed
before the residual-record flush, so the first occurrence is the
reserved one). -/
def lookupAttr (attrs : List (String × AttrVal)) (key : String) : Option AttrVal :=
  (attrs.find? (fun kv => kv.1 = key)).map (fun kv => kv.2)

/-- The reserved `event.internal.rs.kind` vocabulary from the spec. -/
def reservedKinds : List String :=
  ["span:defined", "span:enter", "span:exit", "event", "message_discarded"]

/- ----------------------------------------------------------------- -/
/- `common/ingest.rs` — handler_task: the consumer loop                -/
/- ----------------------------------------------------------------- -/

/-- Observable consumer actions, in order: handling one envelope
(`handle_packet`), closing the queue (`recv.close()`), flushing the
session (`client.flush()`). -/
inductive ConsumerAction
  | handle (m : WrappedMessage)
  | closeQueue
  | flush
deriving DecidableEq, Repr

/-- The select loop of `handler_task`: each iteration either receives the
next delivered envelope and handles it, or sees the shutdown signal and
breaks.  `received` is the sequence of envelopes the loop receives before
the signal branch is taken. -/
def loopPhase : List WrappedMessage → List ConsumerAction
  | [] => []
  | m :: rest => .handle m :: loopPhase rest

/-- The drain loop after `recv.close()`: `while let Some(m) = recv.recv()`. -/
def drainPhase : List WrappedMessage → List ConsumerAction
  | [] => []
  | m :: rest => .handle m :: drainPhase rest

/-- `handler_task` (`common/ingest.rs:275-297`): run the select loop,
then close the queue, drain the residual queue contents, and flush.
`residual` is the queue contents at the moment the shutdown branch is
taken — every envelope enqueued before the signal that the loop had not
yet received. -/
def handlerTask (received residual : List WrappedMessage) : List ConsumerAction :=
  loopPhase received ++ .closeQueue :: (drainPhase residual ++ [.flush])

/- ----------------------------------------------------------------- -/
/- Concrete fixtures used by counterexamples and witnesses            -/
/- ----------------------------------------------------------------- -/

/-- Which messages carry a captured-field bag. -/
def Message.capturedRecords : Message → Option RecordMap
  | .newSpan _ _ r => some r
  | .record _ r => some r
  | .event _ r => some r
  | _ => none

/-- A sample static-metadata block. -/
def mdSample : Metadata := ⟨"evname", .info, some "mod", some "file.rs", some 10⟩

/-- The consumer state right after `async_connect` with default options
(run id fixed for concreteness). -/
def stEmpty : ModalityIngestState :=
  ModalityIngestState.ofOptions (Options.new none) ⟨0⟩ "rid"

/-- Bit pattern of `1.0f64`. -/
def oneF64 : Float64 := ⟨0x3FF0000000000000⟩

/-- A user handler for key "foo" returning `("event.bar", Integer(42))`. -/
def fooHandler : HandlerFunc := fun _ _ _ => ("event.bar", .integer 42)

/-- Default options with the handler table replaced by the "foo" handler
(`Options::set_attr_handlers`). -/
def fooOptions : Options :=
  { Options.new none with attribute_handlers := [⟨"foo", fooHandler⟩] }

/-- The consumer state built from `fooOptions`. -/
def fooState : ModalityIngestState :=
  ModalityIngestState.ofOptions fooOptions ⟨0⟩ "rid"

/-- Distinct concrete timeline ids. -/
def tidA : TimelineId := ⟨⟨1⟩⟩

/-- Second concrete timeline id. -/
def tidB : TimelineId := ⟨⟨2⟩⟩

/-- Third concrete timeline id. -/
def tidC : TimelineId := ⟨⟨3⟩⟩

/-- A full capacity-2 cache whose two slots share the same `last_use`. -/
def lruTie : TimelineLru := ⟨2, [⟨1, tidA, 0⟩, ⟨2, tidB, 0⟩]⟩

/- ================================================================= -/
/- Theorems                                                           -/
/- ================================================================= -/

/-- C1: with a handler configured for key "foo" returning
`("event.bar", Integer(42))` — which, per the handler-module contract
(`documentedHandlerDispatch`), should replace the field — an `Event`
carrying `foo = 1.0f64` is nonetheless translated by `handle_packet`
through the fallback coercion: the output carries
`event.foo = Float(1.0)` and no `event.bar` at all.  `async_connect`
drops `options.attribute_handlers` (the `ModalityIngest` struct has no
such field) and `pack_common_attrs` never consults a handler table. -/
theorem C1_handler_table_unused :
    documentedHandlerDispatch fooOptions.attribute_handlers "foo" (.f64 oneF64)
      fooState.run_id = ("event.bar", .integer 42) ∧
    (handlePacketAttrs fooState (.event mdSample [("foo", .f64 oneF64)]) 5 none).2.isSome ∧
    lookupAttr ((handlePacketAttrs fooState
      (.event mdSample [("foo", .f64 oneF64)]) 5 none).2.getD [])
      "event.foo" = some (.float oneF64) ∧
    lookupAttr ((handlePacketAttrs fooState
      (.event mdSample [("foo", .f64 oneF64)]) 5 none).2.getD [])
      "event.bar" = none := by
  refine ⟨rfl, ?_, ?_, ?_⟩ <;> decide

/-- C2: a captured `interaction.remote_timeline_id` field holding the
u64 value 5 is emitted by `pack_common_attrs` as the integer-typed
attribute `Integer(5)` (via `tracing_value_to_attr_val` /
`BigInt::new_attr_val`), not as the v5-derived `TimelineId` that the
default `remote_timeline_id` handler (`documentedHandlerDispatch` over
`DEFAULT_HANDLERS`) would produce: the manual retyping block at
`common/ingest.rs:670-691` only converts string-typed UUID values. -/
theorem C2_remote_timeline_id_not_derived :
    documentedHandlerDispatch DEFAULT_HANDLERS "interaction.remote_timeline_id"
      (.u64 5) stEmpty.run_id =
      ("event.interaction.remote_timeline_id",
       .timelineId (timeline_id stEmpty.run_id 5)) ∧
    lookupAttr ((handlePacketAttrs stEmpty
      (.event mdSample [("interaction.remote_timeline_id", .u64 5)]) 5 none).2.getD [])
      "event.interaction.remote_timeline_id" = some (.integer 5) := by
  exact ⟨rfl, by decide⟩

/-- C4: the `WARN_LATCH` logic in `handle_message` is inverted.
`has_warned` is set to `compare_exchange(false, true).is_ok()`, which is
`true` exactly on the *first* call, and the warning prints on
`!has_warned`: one call prints nothing, three calls with the identifier
unset print twice — more than the claimed at-most-once, and the first
call (contrary to the claim) is the only silent one. -/
theorem C4_warn_latch_inverted :
    warnAfter 1 = ⟨true, 0⟩ ∧ warnAfter 3 = ⟨true, 2⟩ ∧
    ¬((warnAfter 3).printed ≤ 1) := by
  decide

/-- C3 counterexample: on a full cache whose two slots share the
smallest `last_use`, a missing `user_id` yields the *highest* tied
index, not the lowest: the source updates its running oldest slot on
`oldest_time >= li.last_use`, so a tie moves the slot forward. -/
theorem C3_tie_break_counterexample :
    (lruTie.query 3 5).2 = .error ⟨.doesntExistReplace 1⟩ ∧
    (lruTie.data.map LruItem.last_use) = [0, 0] ∧
    LruToken.mk (.doesntExistReplace 1) ≠ ⟨.doesntExistReplace 0⟩ := by
  refine ⟨rfl, rfl, by decide⟩

/-- C5 counterexample: an `Enter` for a span id absent from the
consumer's span-name table is transmitted *without* any `event.name`
attribute — the source only pushes the name `if let Some(name)`. -/
theorem C5_enter_name_counterexample :
    (handlePacketAttrs stEmpty (.enter 1) 5 none).2 =
      some [("event.internal.rs.kind", .str "span:enter"),
            ("event.internal.rs.span_id", .integer 1),
            ("event.internal.rs.tick", .logicalTime [5])] ∧
    lookupAttr ((handlePacketAttrs stEmpty (.enter 1) 5 none).2.getD [])
      "event.name" = none := by
  exact ⟨rfl, by decide⟩

/-- C6 counterexample: an `Event` whose captured fields contain
`modality.kind = "bogus"` is transmitted with
`event.internal.rs.kind = String("bogus")`, which lies outside the
enumerated reserved-kind set — the captured value overrides the default
unchecked. -/
theorem C6_kind_override_counterexample :
    lookupAttr ((handlePacketAttrs stEmpty
      (.event mdSample [("modality.kind", .str "bogus")]) 5 none).2.getD [])
      "event.internal.rs.kind" = some (.str "bogus") ∧
    "bogus" ∉ reservedKinds := by
  exact ⟨by decide, by decide⟩

/-- C7 counterexample: a captured field literally named
`event.internal.rs.tick` flows through the residual-record flush, so a
record whose tick exceeds `u64::MAX` nanoseconds can still carry an
`event.internal.rs.tick` attribute (here `Integer(7)`), contradicting
the claimed absence. -/
theorem C7_tick_shadow_counterexample :
    u64Max < 2 ^ 64 ∧
    lookupAttr ((handlePacketAttrs stEmpty
      (.event mdSample [("event.internal.rs.tick", .i64 7)]) (2 ^ 64) none).2.getD [])
      "event.internal.rs.tick" = some (.integer 7) := by
  exact ⟨by decide, by decide⟩

/-- The select loop handles exactly the envelopes it receives, in order. -/
theorem loopPhase_eq_map (l : List WrappedMessage) :
    loopPhase l = l.map ConsumerAction.handle := by
  induction l with
  | nil => rfl
  | cons m rest ih => simp [loopPhase, ih]

/-- The drain loop handles exactly the residual envelopes, in order. -/
theorem drainPhase_eq_map (l : List WrappedMessage) :
    drainPhase l = l.map ConsumerAction.handle := by
  induction l with
  | nil => rfl
  | cons m rest ih => simp [drainPhase, ih]

/-- Handling actions are never flushes. -/
theorem count_flush_map_handle (l : List WrappedMessage) :
    (l.map ConsumerAction.handle).count ConsumerAction.flush = 0 := by
  induction l with
  | nil => rfl
  | cons m rest ih => simpa [List.count_cons] using ih

/-- C9: after the shutdown signal the consumer closes the queue, handles
every envelope that was still queued (in order, all after the close),
flushes exactly once, with the flush as the very last action, and the
run is a finite action list (the drain terminates).  `received` are the
envelopes the select loop handled before the signal branch fired;
`residual` is the queue contents at that point, i.e. every envelope
enqueued before the signal and not yet received. -/
theorem C9_shutdown_drain (received residual : List WrappedMessage) :
    handlerTask received residual =
      received.map ConsumerAction.handle
        ++ ConsumerAction.closeQueue
        :: (residual.map ConsumerAction.handle ++ [ConsumerAction.flush]) ∧
    (handlerTask received residual).count ConsumerAction.flush = 1 ∧
    (handlerTask received residual).getLast? = some ConsumerAction.flush := by
  have hshape : handlerTask received residual =
      received.map ConsumerAction.handle
        ++ ConsumerAction.closeQueue
        :: (residual.map ConsumerAction.handle ++ [ConsumerAction.flush]) := by
    simp [handlerTask, loopPhase_eq_map, drainPhase_eq_map]
  refine ⟨hshape, ?_, ?_⟩
  · rw [hshape]
    simp [List.count_append, List.count_cons, count_flush_map_handle]
  · have hshape2 : handlerTask received residual =
        (received.map ConsumerAction.handle
          ++ ConsumerAction.closeQueue :: residual.map ConsumerAction.handle)
        ++ [ConsumerAction.flush] := by
      simp [hshape]
    rw [hshape2]
    exact List.getLast?_concat _

/-- Prepending a string always yields a string starting with it. -/
theorem strStartsWith_append (p s : String) : strStartsWith (p ++ s) p = true := by
  rw [strStartsWith, String.data_append, List.isPrefixOf_iff_prefix]
  exact List.prefix_append p.data s.data

/-- Normalizing an event key is idempotent. -/
theorem normalizeEventKey_idem (k : String) :
    normalizeEventKey (normalizeEventKey k) = normalizeEventKey k := by
  unfold normalizeEventKey
  by_cases h : strStartsWith k "event." = true
  · simp [h]
  · simp [h, strStartsWith_append]

/-- A normalized event key always begins with `event.`. -/
theorem normalizeEventKey_startsWith (k : String) :
    strStartsWith (normalizeEventKey k) "event." = true := by
  unfold normalizeEventKey
  by_cases h : strStartsWith k "event." = true
  · simp [h]
  · simp [h, strStartsWith_append]

/-- Interning a second key that normalizes to the same string as the
first is invisible: same handle, and the whole interner state (handle
caches, next fresh handle, and the session-request log) is untouched. -/
theorem getOrCreateEventAttrKey_stable (st : InternState) (k1 k2 : String)
    (h : normalizeEventKey k2 = normalizeEventKey k1) :
    (st.getOrCreateEventAttrKey k1).2.getOrCreateEventAttrKey k2 =
      ((st.getOrCreateEventAttrKey k1).1, (st.getOrCreateEventAttrKey k1).2) := by
  unfold InternState.getOrCreateEventAttrKey
  rw [h]
  cases hl : lookupAssoc st.event_keys (normalizeEventKey k1) with
  | some id => simp [hl]
  | none => simp [hl, lookupAssoc]

/-- The timeline-scope analogue (no normalization in the source). -/
theorem getOrCreateTimelineAttrKey_stable (st : InternState) (k : String) :
    (st.getOrCreateTimelineAttrKey k).2.getOrCreateTimelineAttrKey k =
      ((st.getOrCreateTimelineAttrKey k).1, (st.getOrCreateTimelineAttrKey k).2) := by
  unfold InternState.getOrCreateTimelineAttrKey
  cases hl : lookupAssoc st.timeline_keys k with
  | some id => simp [hl]
  | none => simp [hl, lookupAssoc]

/-- C8: interning is idempotent and normalizing.  Re-interning any key
`k` — in either scope, prefixed or not — returns the handle of the first
call and leaves the interner state unchanged, in particular the
session-request log: no new handle is requested.  Every event-scope key
is stored normalized with the `event.` prefix, and for a key `k` without
the prefix, interning `k` and then interning `event.k` yield the same
handle with no second session request. -/
theorem C8_interning_idempotent_normalizing :
    (∀ (st : InternState) (k : String),
      (st.getOrCreateEventAttrKey k).2.getOrCreateEventAttrKey k =
        ((st.getOrCreateEventAttrKey k).1, (st.getOrCreateEventAttrKey k).2)) ∧
    (∀ (st : InternState) (k : String),
      (st.getOrCreateTimelineAttrKey k).2.getOrCreateTimelineAttrKey k =
        ((st.getOrCreateTimelineAttrKey k).1,
         (st.getOrCreateTimelineAttrKey k).2)) ∧
    (∀ (st : InternState) (k : String), ¬ strStartsWith k "event." = true →
      (st.getOrCreateEventAttrKey k).2.getOrCreateEventAttrKey ("event." ++ k) =
        ((st.getOrCreateEventAttrKey k).1, (st.getOrCreateEventAttrKey k).2)) ∧
    (∀ k : String, strStartsWith (normalizeEventKey k) "event." = true) := by
  refine ⟨fun st k => getOrCreateEventAttrKey_stable st k k rfl,
          fun st k => getOrCreateTimelineAttrKey_stable st k, ?_,
          normalizeEventKey_startsWith⟩
  intro st k hk
  apply getOrCreateEventAttrKey_stable
  unfold normalizeEventKey
  simp [hk, strStartsWith_append]

/-- Witness for C8 at `k := "x"` on the empty interner state,
discharging the no-prefix hypothesis of the third conjunct. -/
theorem C8_interning_witness :
    (¬ strStartsWith "x" "event." = true) ∧
    ((InternState.mk [] [] 0 []).getOrCreateEventAttrKey
        "x").2.getOrCreateEventAttrKey "event.x" =
      (((InternState.mk [] [] 0 []).getOrCreateEventAttrKey "x").1,
       ((InternState.mk [] [] 0 []).getOrCreateEventAttrKey "x").2) ∧
    ((InternState.mk [] [] 0 []).getOrCreateEventAttrKey
        "event.name").2.getOrCreateEventAttrKey "event.name" =
      (((InternState.mk [] [] 0 []).getOrCreateEventAttrKey "event.name").1,
       ((InternState.mk [] [] 0 []).getOrCreateEventAttrKey "event.name").2) := by
  refine ⟨by decide, ?_, ?_⟩
  · exact C8_interning_idempotent_normalizing.2.2.1 ⟨[], [], 0, []⟩ "x" (by decide)
  · exact C8_interning_idempotent_normalizing.1 ⟨[], [], 0, []⟩ "event.name"

/-- A hit in the not-full scan only touches `last_use`: the slot count
is unchanged. -/
theorem findTouch_length (uid now : Nat) :
    ∀ (data : List LruItem) (tid : TimelineId) (d2 : List LruItem),
      findTouch uid now data = some (tid, d2) → d2.length = data.length := by
  intro data
  induction data with
  | nil => intro tid d2 h; simp [findTouch] at h
  | cons li rest ih =>
    intro tid d2 h
    by_cases hu : li.user_id = uid
    · simp [findTouch, hu] at h
      simp [← h.2]
    · simp [findTouch, hu] at h
      cases hr : findTouch uid now rest with
      | none => rw [hr] at h; simp at h
      | some p =>
        obtain ⟨t, r2⟩ := p
        rw [hr] at h
        simp at h
        rw [← h.2]
        simpa using ih t r2 hr

/-- The full-branch scan reconstructs a vector of the same length. -/
theorem queryFullAux_fst_length (uid now : Nat) :
    ∀ (items : List LruItem) (idx ot os : Nat),
      (queryFullAux uid now items idx ot os).1.length = items.length := by
  intro items
  induction items with
  | nil => intro idx ot os; rfl
  | cons li rest ih =>
    intro idx ot os
    by_cases hu : li.user_id = uid
    · simp [queryFullAux, hu]
    · simp [queryFullAux, hu, ih]

/-- `query` never changes the capacity or the slot count. -/
theorem query_preserves (lru : TimelineLru) (uid now : Nat) :
    (lru.query uid now).1.cap = lru.cap ∧
    (lru.query uid now).1.data.length = lru.data.length := by
  by_cases hfull : lru.data.length ≥ lru.cap
  · rcases hqq : queryFullAux uid now lru.data 0 now 0 with ⟨d2, r, s⟩
    have hlen := queryFullAux_fst_length uid now lru.data 0 now 0
    rw [hqq] at hlen
    simp at hlen
    cases r with
    | none => simp [TimelineLru.query, hfull, hqq]
    | some tid => simp [TimelineLru.query, hfull, hqq, hlen]
  · cases hf : findTouch uid now lru.data with
    | none => simp [TimelineLru.query, hfull, hf]
    | some p =>
      obtain ⟨tid, d2⟩ := p
      have hlen := findTouch_length uid now lru.data tid d2 hf
      simp [TimelineLru.query, hfull, hf, hlen]

/-- On a miss, `query` returns the cache unchanged, and hands out the
append token only when the cache is genuinely not full. -/
theorem query_error_shape (lru : TimelineLru) (uid now : Nat) (tok : LruToken)
    (h : (lru.query uid now).2 = .error tok) :
    (lru.query uid now).1 = lru ∧
    (tok.val = .doesntExistNotFull → lru.data.length < lru.cap) := by
  by_cases hfull : lru.data.length ≥ lru.cap
  · rcases hqq : queryFullAux uid now lru.data 0 now 0 with ⟨d2, r, s⟩
    cases r with
    | none =>
      simp [TimelineLru.query, hfull, hqq] at h ⊢
      rw [← h]
      intro hcontra
      simp at hcontra
    | some tid => simp [TimelineLru.query, hfull, hqq] at h
  · cases hf : findTouch uid now lru.data with
    | none =>
      simp [TimelineLru.query, hfull, hf]
      omega
    | some p =>
      obtain ⟨tid, d2⟩ := p
      simp [TimelineLru.query, hfull, hf] at h

/-- Replace-token inserts never change the slot count (out-of-bounds
indices are a silent no-op, in-bounds indices overwrite in place). -/
theorem insert_replace_length (lru : TimelineLru) (uid : Nat) (tid : TimelineId)
    (idx now : Nat) :
    (lru.insert uid tid ⟨.doesntExistReplace idx⟩ now).data.length =
      lru.data.length := by
  simp [TimelineLru.insert]

/-- One protocol round preserves the capacity bound. -/
theorem queryInsert_preserves (lru : TimelineLru) (uid : Nat) (tid : TimelineId)
    (now : Nat) (h : lru.data.length ≤ lru.cap) :
    (lru.queryInsert uid tid now).data.length ≤ lru.cap ∧
    (lru.queryInsert uid tid now).cap = lru.cap := by
  unfold TimelineLru.queryInsert
  rcases hq : lru.query uid now with ⟨lru2, r⟩
  have hpres := query_preserves lru uid now
  rw [hq] at hpres
  cases r with
  | ok tid0 =>
    simp at hpres
    exact ⟨by rw [hpres.2]; exact h, hpres.1⟩
  | error tok =>
    have hshape := query_error_shape lru uid now tok (by rw [hq])
    rw [hq] at hshape
    simp at hshape
    rcases hshape with ⟨heq, hnf⟩
    subst heq
    cases htok : tok.val with
    | doesntExistNotFull =>
      have hlt := hnf htok
      simp [TimelineLru.insert, htok]
      omega
    | doesntExistReplace idx =>
      simp [TimelineLru.insert, htok]
      exact h

/-- C10: under the two-phase protocol the cache never exceeds its
capacity; a replace-token insert never changes the slot count; and the
capacity-0 cache is inert — the state stays empty forever and every
query misses with the (out-of-bounds) replace-slot-0 token. -/
theorem C10_lru_capacity_invariant :
    (∀ (lru : TimelineLru) (ops : List (Nat × TimelineId × Nat)),
      lru.data.length ≤ lru.cap →
      (lru.runProtocol ops).data.length ≤ lru.cap ∧
      (lru.runProtocol ops).cap = lru.cap) ∧
    (∀ (lru : TimelineLru) (uid : Nat) (tid : TimelineId) (idx now : Nat),
      (lru.insert uid tid ⟨.doesntExistReplace idx⟩ now).data.length =
        lru.data.length) ∧
    (∀ ops : List (Nat × TimelineId × Nat),
      (TimelineLru.with_capacity 0).runProtocol ops = TimelineLru.with_capacity 0) ∧
    (∀ uid now : Nat,
      ((TimelineLru.with_capacity 0).query uid now).2 =
        .error ⟨.doesntExistReplace 0⟩) := by
  refine ⟨?_, insert_replace_length, ?_, fun uid now => rfl⟩
  · intro lru ops
    induction ops generalizing lru with
    | nil => intro h; exact ⟨h, rfl⟩
    | cons op rest ih =>
      intro h
      rcases op with ⟨uid, tid, now⟩
      have hstep := queryInsert_preserves lru uid tid now h
      have hinv : (lru.queryInsert uid tid now).data.length ≤
          (lru.queryInsert uid tid now).cap := by
        rw [hstep.2]; exact hstep.1
      have hrec := ih (lru.queryInsert uid tid now) hinv
      rw [TimelineLru.runProtocol]
      exact ⟨by rw [← hstep.2]; exact hrec.1, by rw [hrec.2, hstep.2]⟩
  · intro ops
    induction ops with
    | nil => rfl
    | cons op rest ih =>
      rcases op with ⟨uid, tid, now⟩
      rw [TimelineLru.runProtocol]
      have hstep : (TimelineLru.with_capacity 0).queryInsert uid tid now =
          TimelineLru.with_capacity 0 := rfl
      rw [hstep]
      exact ih

/-- Witness for C10: three protocol rounds against a capacity-2 cache
stay within two slots. -/
theorem C10_lru_capacity_witness :
    ((TimelineLru.with_capacity 2).runProtocol
      [(1, tidA, 0), (2, tidB, 1), (3, tidC, 2)]).data.length ≤ 2 := by
  have h := (C10_lru_capacity_invariant.1 (TimelineLru.with_capacity 2)
    [(1, tidA, 0), (2, tidB, 1), (3, tidC, 2)] (by decide)).1
  exact h

/-- Characterization of the full-branch miss scan relative to its
running `(oldest_time, oldest_slot)` accumulator: the scan leaves the
vector untouched, reports no hit, and the final slot is either the
incoming accumulator slot (when every remaining `last_use` beats the
incoming time strictly) or the position of the *last* item whose
`last_use` is minimal among the remainder and no larger than the
incoming time. -/
theorem queryFullAux_miss_char (uid now : Nat) :
    ∀ (items : List LruItem) (idx ot os : Nat),
      (∀ li ∈ items, li.user_id ≠ uid) →
      ∃ r, queryFullAux uid now items idx ot os = (items, none, r) ∧
        ((r = os ∧ ∀ li ∈ items, ot < li.last_use) ∨
         (∃ k, ∃ hk : k < items.length, r = idx + k ∧
           (items.get ⟨k, hk⟩).last_use ≤ ot ∧
           (∀ li ∈ items, (items.get ⟨k, hk⟩).last_use ≤ li.last_use) ∧
           (∀ j, (hj : j < items.length) → k < j →
             (items.get ⟨k, hk⟩).last_use < (items.get ⟨j, hj⟩).last_use))) := by
  intro items
  induction items with
  | nil =>
    intro idx ot os _
    exact ⟨os, rfl, Or.inl ⟨rfl, by simp⟩⟩
  | cons li rest ih =>
    intro idx ot os hmiss
    have hli : li.user_id ≠ uid := hmiss li (by simp)
    have hrest : ∀ li2 ∈ rest, li2.user_id ≠ uid :=
      fun li2 hm => hmiss li2 (by simp [hm])
    by_cases hcmp : ot ≥ li.last_use
    · obtain ⟨r, heq, hdisj⟩ := ih (idx + 1) li.last_use idx hrest
      refine ⟨r, ?_, ?_⟩
      · simp [queryFullAux, hli, hcmp, heq]
      · rcases hdisj with ⟨hr, hall⟩ | ⟨k, hk, hr, hle, hmin, hstrict⟩
        · refine Or.inr ⟨0, by simp, by simpa using hr, by simpa using hcmp, ?_, ?_⟩
          · intro li2 hm
            simp only [List.get]
            rcases List.mem_cons.mp hm with h | h
            · simp [h]
            · exact le_of_lt (hall li2 h)
          · intro j hj hpos
            match j, hj with
            | j0 + 1, hj =>
              simp only [List.get_cons_succ, List.get]
              exact hall (rest.get ⟨j0, by simpa using hj⟩) (List.get_mem _ _ _)
        · refine Or.inr ⟨k + 1, by simpa using hk, by omega, ?_, ?_, ?_⟩
          · simp only [List.get_cons_succ]
            exact le_trans hle hcmp
          · intro li2 hm
            simp only [List.get_cons_succ]
            rcases List.mem_cons.mp hm with h | h
            · rw [h]; exact hle
            · exact hmin li2 h
          · intro j hj hpos
            match j, hj with
            | j0 + 1, hj =>
              simp only [List.get_cons_succ]
              exact hstrict j0 (by simpa using hj) (by omega)
    · obtain ⟨r, heq, hdisj⟩ := ih (idx + 1) ot os hrest
      have hlt : ot < li.last_use := by omega
      refine ⟨r, ?_, ?_⟩
      · simp [queryFullAux, hli, hcmp, heq]
      · rcases hdisj with ⟨hr, hall⟩ | ⟨k, hk, hr, hle, hmin, hstrict⟩
        · refine Or.inl ⟨hr, ?_⟩
          intro li2 hm
          rcases List.mem_cons.mp hm with h | h
          · rw [h]; exact hlt
          · exact hall li2 h
        · refine Or.inr ⟨k + 1, by simpa using hk, by omega, ?_, ?_, ?_⟩
          · simp only [List.get_cons_succ]
            exact hle
          · intro li2 hm
            simp only [List.get_cons_succ]
            rcases List.mem_cons.mp hm with h | h
            · rw [h]; exact le_trans hle (le_of_lt hlt)
            · exact hmin li2 h
          · intro j hj hpos
            match j, hj with
            | j0 + 1, hj =>
              simp only [List.get_cons_succ]
              exact hstrict j0 (by simpa using hj) (by omega)

/-- C3 (amended): on a full cache with a monotone clock (`now` at least
every stored `last_use`) a query for an absent `user_id` returns a
replace token whose slot attains the minimal `last_use` — but among
equal minima it is the *highest* such index, not the lowest: every later
slot is strictly younger. -/
theorem C3_evicts_last_minimal_slot (lru : TimelineLru) (uid now : Nat)
    (hfull : lru.cap ≤ lru.data.length)
    (hne : lru.data ≠ [])
    (hmiss : ∀ li ∈ lru.data, li.user_id ≠ uid)
    (hmono : ∀ li ∈ lru.data, li.last_use ≤ now) :
    ∃ s, ∃ hs : s < lru.data.length,
      (lru.query uid now).2 = .error ⟨.doesntExistReplace s⟩ ∧
      (∀ j, (hj : j < lru.data.length) →
        (lru.data.get ⟨s, hs⟩).last_use ≤ (lru.data.get ⟨j, hj⟩).last_use) ∧
      (∀ j, (hj : j < lru.data.length) → s < j →
        (lru.data.get ⟨s, hs⟩).last_use < (lru.data.get ⟨j, hj⟩).last_use) := by
  obtain ⟨r, heq, hdisj⟩ := queryFullAux_miss_char uid now lru.data 0 now 0 hmiss
  rcases hdisj with ⟨_, hall⟩ | ⟨k, hk, hr, _, hmin, hstrict⟩
  · obtain ⟨li0, hm0⟩ := List.exists_mem_of_ne_nil lru.data hne
    exact absurd (hall li0 hm0) (by simpa using hmono li0 hm0)
  · have hr0 : r = k := by omega
    rw [hr0] at heq
    refine ⟨k, hk, ?_, ?_, hstrict⟩
    · simp [TimelineLru.query, show lru.data.length ≥ lru.cap from hfull, heq]
    · intro j hj
      exact hmin (lru.data.get ⟨j, hj⟩) (List.get_mem _ _ _)

/-- Witness for C3's amended statement on the concrete tied cache: the
hypotheses hold and the designated slot is index 1. -/
theorem C3_evicts_witness :
    (lruTie.cap ≤ lruTie.data.length ∧ lruTie.data ≠ [] ∧
     (∀ li ∈ lruTie.data, li.user_id ≠ 3) ∧
     (∀ li ∈ lruTie.data, li.last_use ≤ 5)) ∧
    ∃ s, ∃ hs : s < lruTie.data.length,
      (lruTie.query 3 5).2 = .error ⟨.doesntExistReplace s⟩ ∧
      (∀ j, (hj : j < lruTie.data.length) →
        (lruTie.data.get ⟨s, hs⟩).last_use ≤ (lruTie.data.get ⟨j, hj⟩).last_use) ∧
      (∀ j, (hj : j < lruTie.data.length) → s < j →
        (lruTie.data.get ⟨s, hs⟩).last_use < (lruTie.data.get ⟨j, hj⟩).last_use) := by
  refine ⟨⟨by decide, by decide, by decide, by decide⟩, ?_⟩
  exact C3_evicts_last_minimal_slot lruTie 3 5 (by decide) (by decide)
    (by decide) (by decide)

/-- Key lookup distributes over append as a left-biased choice. -/
theorem lookupAttr_append (l1 l2 : List (String × AttrVal)) (k : String) :
    lookupAttr (l1 ++ l2) k = (lookupAttr l1 k).or (lookupAttr l2 k) := by
  unfold lookupAttr
  rw [List.find?_append]
  cases List.find? (fun kv => kv.1 = k) l1 <;> simp [Option.or]

/-- A list without the key has no lookup result. -/
theorem lookupAttr_none_of_keys {l : List (String × AttrVal)} {k : String}
    (h : ∀ kv ∈ l, kv.1 ≠ k) : lookupAttr l k = none := by
  unfold lookupAttr
  rw [List.find?_eq_none.mpr]
  · rfl
  · intro kv hm
    simpa using h kv hm

/-- Every removal result is a sub-collection of the original map. -/
theorem removeRecord_snd_subset (key : String) :
    ∀ (m : RecordMap) (r : String × TracingValue),
      r ∈ (removeRecord m key).2 → r ∈ m := by
  intro m
  induction m with
  | nil => intro r h; simp [removeRecord] at h
  | cons kv rest ih =>
    intro r h
    by_cases hk : kv.1 = key
    · rcases kv with ⟨k0, v0⟩
      simp only at hk
      simp [removeRecord, hk] at h
      exact List.mem_cons_of_mem _ h
    · rcases kv with ⟨k0, v0⟩
      simp only at hk
      simp [removeRecord, hk] at h
      rcases h with h | h
      · simp [h]
      · exact List.mem_cons_of_mem _ (ih r h)

/-- Removing an absent key is the identity. -/
theorem removeRecord_of_getRecord_none (key : String) :
    ∀ (m : RecordMap), getRecord m key = none → removeRecord m key = (none, m) := by
  intro m
  induction m with
  | nil => intro _; rfl
  | cons kv rest ih =>
    intro h
    rcases kv with ⟨k0, v0⟩
    by_cases hk : k0 = key
    · simp [getRecord, hk] at h
    · simp [getRecord, hk] at h
      simp [removeRecord, hk, ih h]

/-- The name step only ever drops entries. -/
theorem nameStepF_snd_subset (records : RecordMap) (r : String × TracingValue)
    (h : r ∈ (nameStepF records).2) : r ∈ records := by
  unfold nameStepF at h
  rcases hn : removeRecord records "name" with ⟨o, rr⟩
  rw [hn] at h
  cases o with
  | some v =>
    simp at h
    have : r ∈ (removeRecord records "name").2 := by rw [hn]; exact h
    exact removeRecord_snd_subset "name" records r this
  | none =>
    simp at h
    have h2 : r ∈ (removeRecord rr "message").2 := h
    have h3 : r ∈ rr := removeRecord_snd_subset "message" rr r h2
    have : r ∈ (removeRecord records "name").2 := by rw [hn]; exact h3
    exact removeRecord_snd_subset "name" records r this

/-- Keys produced by the `event.source.module` chunk. -/
theorem moduleAttrs_lookup_ne (v : Option AttrVal) (k : String)
    (h : ("event.source.module" : String) ≠ k) : lookupAttr (moduleAttrs v) k = none := by
  cases v <;> simp [moduleAttrs, lookupAttr, List.find?, h]

/-- Keys produced by the `event.source.file` chunk. -/
theorem fileAttrs_lookup_ne (v : Option AttrVal) (k : String)
    (h : ("event.source.file" : String) ≠ k) : lookupAttr (fileAttrs v) k = none := by
  cases v <;> simp [fileAttrs, lookupAttr, List.find?, h]

/-- Keys produced by the `event.source.line` chunk. -/
theorem lineAttrs_lookup_ne (v : Option AttrVal) (k : String)
    (h : ("event.source.line" : String) ≠ k) : lookupAttr (lineAttrs v) k = none := by
  cases v <;> simp [lineAttrs, lookupAttr, List.find?, h]

/-- Keys produced by the remote-timeline-id chunk. -/
theorem rtlAttrs_lookup_ne (v : Option AttrVal) (k : String)
    (h : ("event.interaction.remote_timeline_id" : String) ≠ k) :
    lookupAttr (rtlAttrs v) k = none := by
  apply lookupAttr_none_of_keys
  intro kv hm
  cases v with
  | none => simp [rtlAttrs] at hm
  | some v =>
    cases v with
    | str s =>
      cases hu : uuidFromString s with
      | some u => simp [rtlAttrs, hu] at hm; simpa [hm] using h
      | none => simp [rtlAttrs, hu] at hm; simpa [hm] using h
    | integer n => simp [rtlAttrs] at hm; simpa [hm] using h
    | bigInt n => simp [rtlAttrs] at hm; simpa [hm] using h
    | float n => simp [rtlAttrs] at hm; simpa [hm] using h
    | bool b => simp [rtlAttrs] at hm; simpa [hm] using h
    | timestamp t => simp [rtlAttrs] at hm; simpa [hm] using h
    | logicalTime t => simp [rtlAttrs] at hm; simpa [hm] using h
    | timelineId t => simp [rtlAttrs] at hm; simpa [hm] using h

/-- Keys produced by the remote-timestamp chunk. -/
theorem rtsAttrs_lookup_ne (v : Option AttrVal) (k : String)
    (h : ("event.interaction.remote_timestamp" : String) ≠ k) :
    lookupAttr (rtsAttrs v) k = none := by
  cases v <;> simp [rtsAttrs, lookupAttr, List.find?, h]

/-- Keys produced by the `event.timestamp` chunk. -/
theorem tsAttrs_lookup_ne (v : Option AttrVal) (wall : Option Nat) (k : String)
    (h : ("event.timestamp" : String) ≠ k) : lookupAttr (tsAttrs v wall) k = none := by
  apply lookupAttr_none_of_keys
  intro kv hm
  cases v with
  | some v => simp [tsAttrs] at hm; simpa [hm] using h
  | none =>
    cases wall with
    | none => simp [tsAttrs] at hm
    | some w =>
      by_cases hw : w ≤ u64Max
      · simp [tsAttrs, hw] at hm; simpa [hm] using h
      · simp [tsAttrs, hw] at hm

/-- Lookup of the tick attribute inside the guarded tick chunk. -/
theorem tickAttrs_lookup (tick : Nat) :
    lookupAttr (tickAttrs tick) "event.internal.rs.tick" =
      (if tick ≤ u64Max then some (.logicalTime [tick]) else none) := by
  by_cases h : tick ≤ u64Max <;> simp [tickAttrs, lookupAttr, List.find?, h]

/-- The tick chunk holds no other key. -/
theorem tickAttrs_lookup_ne (tick : Nat) (k : String)
    (h : ("event.internal.rs.tick" : String) ≠ k) : lookupAttr (tickAttrs tick) k = none := by
  by_cases ht : tick ≤ u64Max <;> simp [tickAttrs, lookupAttr, List.find?, h, ht]

/-- Lookup inside the residual flush misses every key no residual record
normalizes to. -/
theorem residualAttrs_lookup_none (records : RecordMap) (k : String)
    (h : ∀ kv ∈ records, normalizeEventKey kv.1 ≠ k) :
    lookupAttr (residualAttrs records) k = none := by
  apply lookupAttr_none_of_keys
  intro kv hm
  simp [residualAttrs, List.mem_map] at hm
  obtain ⟨a, b, hab, hkv⟩ := hm
  rw [← hkv]
  exact h (a, b) hab

/-- The residual flush of `pack_common_attrs` only sees records that
were in the incoming map: the reserved removals only drop entries. -/
theorem packCommon_residual_subset (records : RecordMap) :
    ∀ r ∈ (removeRecord (removeRecord (removeRecord (removeRecord (removeRecord
      (removeRecord (removeRecord (nameStepF records).2 "severity").2
      "source.module").2 "source.file").2 "source.line").2
      "interaction.remote_timeline_id").2 "interaction.remote_timestamp").2
      "timestamp").2, r ∈ records := by
  intro r hr
  exact nameStepF_snd_subset records r
    (removeRecord_snd_subset "severity" _ r
      (removeRecord_snd_subset "source.module" _ r
        (removeRecord_snd_subset "source.file" _ r
          (removeRecord_snd_subset "source.line" _ r
            (removeRecord_snd_subset "interaction.remote_timeline_id" _ r
              (removeRecord_snd_subset "interaction.remote_timestamp" _ r
                (removeRecord_snd_subset "timestamp" _ r hr)))))))

/-- The common packing emits the tick attribute exactly when the tick
fits in a `u64`, with its unary logical-time value — provided no
captured field normalizes onto the reserved tick key. -/
theorem packCommon_tick_lookup (md : Metadata) (records : RecordMap) (tick : Nat)
    (wall : Option Nat)
    (hres : ∀ kv ∈ records, normalizeEventKey kv.1 ≠ "event.internal.rs.tick") :
    lookupAttr (packCommonAttrs md records tick wall) "event.internal.rs.tick" =
      (if tick ≤ u64Max then some (.logicalTime [tick]) else none) := by
  simp only [packCommonAttrs, lookupAttr_append]
  rw [tickAttrs_lookup,
      moduleAttrs_lookup_ne _ _ (by decide),
      fileAttrs_lookup_ne _ _ (by decide),
      lineAttrs_lookup_ne _ _ (by decide),
      rtlAttrs_lookup_ne _ _ (by decide),
      rtsAttrs_lookup_ne _ _ (by decide),
      tsAttrs_lookup_ne _ _ _ (by decide),
      residualAttrs_lookup_none _ _
        (fun kv hm => hres kv (packCommon_residual_subset records kv hm))]
  by_cases ht : tick ≤ u64Max <;> simp [ht, lookupAttr, List.find?, Option.or]

/-- The common packing always carries an `event.name` attribute (it is
the first pair pushed). -/
theorem packCommon_name_isSome (md : Metadata) (records : RecordMap) (tick : Nat)
    (wall : Option Nat) :
    (lookupAttr (packCommonAttrs md records tick wall) "event.name").isSome = true := by
  simp only [packCommonAttrs, lookupAttr_append]
  simp [lookupAttr, List.find?, Option.or]

/-- Lookup steps through a cons cell by key comparison. -/
theorem lookupAttr_cons (k0 : String) (v0 : AttrVal) (l : List (String × AttrVal))
    (k : String) :
    lookupAttr ((k0, v0) :: l) k = if k0 = k then some v0 else lookupAttr l k := by
  by_cases h : k0 = k <;> simp [lookupAttr, List.find?, h]

/-- C5 (amended): `NewSpan` and `Event` records always carry
`event.name`; `Enter` and `Exit` records carry it exactly when the span
id is present in the consumer's span-name table (the source pushes the
name only `if let Some(name)`). -/
theorem C5_event_name_presence :
    (∀ (st : ModalityIngestState) (id : SpanId) (md : Metadata) (records : RecordMap)
        (tick : Nat) (wall : Option Nat),
      ∃ attrs, (handlePacketAttrs st (.newSpan id md records) tick wall).2 = some attrs ∧
        (lookupAttr attrs "event.name").isSome = true) ∧
    (∀ (st : ModalityIngestState) (md : Metadata) (records : RecordMap)
        (tick : Nat) (wall : Option Nat),
      ∃ attrs, (handlePacketAttrs st (.event md records) tick wall).2 = some attrs ∧
        (lookupAttr attrs "event.name").isSome = true) ∧
    (∀ (st : ModalityIngestState) (span : SpanId) (tick : Nat) (wall : Option Nat),
      ∃ attrs, (handlePacketAttrs st (.enter span) tick wall).2 = some attrs ∧
        (lookupAttr attrs "event.name").isSome =
          (spanNamesGet st.span_names span).isSome) ∧
    (∀ (st : ModalityIngestState) (span : SpanId) (tick : Nat) (wall : Option Nat),
      ∃ attrs, (handlePacketAttrs st (.exit span) tick wall).2 = some attrs ∧
        (lookupAttr attrs "event.name").isSome =
          (spanNamesGet st.span_names span).isSome) := by
  refine ⟨?_, ?_, ?_, ?_⟩
  · intro st id md records tick wall
    refine ⟨_, rfl, ?_⟩
    simp [lookupAttr, List.find?]
  · intro st md records tick wall
    refine ⟨_, rfl, ?_⟩
    rw [lookupAttr_cons, if_neg (by decide)]
    exact packCommon_name_isSome md _ tick wall
  · intro st span tick wall
    refine ⟨_, rfl, ?_⟩
    cases h : spanNamesGet st.span_names span with
    | none =>
      simp only [h]
      rw [lookupAttr_append, lookupAttr_append,
          tickAttrs_lookup_ne _ _ (by decide)]
      simp [lookupAttr, List.find?, Option.or]
    | some n =>
      simp only [h]
      rw [lookupAttr_append, lookupAttr_append]
      simp [lookupAttr, List.find?, Option.or]
  · intro st span tick wall
    refine ⟨_, rfl, ?_⟩
    cases h : spanNamesGet st.span_names span with
    | none =>
      simp only [h]
      rw [lookupAttr_append, lookupAttr_append,
          tickAttrs_lookup_ne _ _ (by decide)]
      simp [lookupAttr, List.find?, Option.or]
    | some n =>
      simp only [h]
      rw [lookupAttr_append, lookupAttr_append]
      simp [lookupAttr, List.find?, Option.or]

/-- C6 (amended): every transmitted record carries an
`event.internal.rs.kind` attribute, and whenever the captured fields
contain no `modality.kind` entry its value is drawn from the reserved
vocabulary ("span:defined" / "event" / "span:enter" / "span:exit"); a
captured `modality.kind` value is passed through as the kind unchecked
(it may lie outside the set, witness the counterexample). -/
theorem C6_kind_reserved (st : ModalityIngestState) (msg : Message) (tick : Nat)
    (wall : Option Nat) (hemit : msg.emitsEvent = true)
    (hnk : ∀ r, msg.capturedRecords = some r → getRecord r "modality.kind" = none) :
    ∃ attrs v, (handlePacketAttrs st msg tick wall).2 = some attrs ∧
      lookupAttr attrs "event.internal.rs.kind" = some (.str v) ∧
      v ∈ reservedKinds := by
  cases msg with
  | newSpan id md records =>
    have hrm := removeRecord_of_getRecord_none "modality.kind" records
      (hnk records rfl)
    refine ⟨_, "span:defined", rfl, ?_, by decide⟩
    rw [lookupAttr_append, lookupAttr_cons, if_neg (by decide),
        lookupAttr_cons, if_pos rfl]
    simp [hrm, Option.or]
  | event md records =>
    have hrm := removeRecord_of_getRecord_none "modality.kind" records
      (hnk records rfl)
    refine ⟨_, "event", rfl, ?_, by decide⟩
    rw [lookupAttr_cons, if_pos rfl]
    simp [hrm]
  | enter span =>
    refine ⟨_, "span:enter", rfl, ?_, by decide⟩
    cases h : spanNamesGet st.span_names span with
    | none =>
      simp only [h]
      rw [lookupAttr_append, lookupAttr_append]
      simp [lookupAttr, List.find?, Option.or]
    | some n =>
      simp only [h]
      rw [lookupAttr_append, lookupAttr_append]
      simp [lookupAttr, List.find?, Option.or]
  | exit span =>
    refine ⟨_, "span:exit", rfl, ?_, by decide⟩
    cases h : spanNamesGet st.span_names span with
    | none =>
      simp only [h]
      rw [lookupAttr_append, lookupAttr_append]
      simp [lookupAttr, List.find?, Option.or]
    | some n =>
      simp only [h]
      rw [lookupAttr_append, lookupAttr_append]
      simp [lookupAttr, List.find?, Option.or]
  | record _ _ => simp [Message.emitsEvent] at hemit
  | recordFollowsFrom _ _ => simp [Message.emitsEvent] at hemit
  | close _ => simp [Message.emitsEvent] at hemit
  | idChange _ _ => simp [Message.emitsEvent] at hemit

/-- Witness for C6 on a concrete `Event` without `modality.kind`. -/
theorem C6_kind_reserved_witness :
    ((Message.event mdSample []).emitsEvent = true) ∧
    ∃ attrs v, (handlePacketAttrs stEmpty (.event mdSample []) 5 none).2 = some attrs ∧
      lookupAttr attrs "event.internal.rs.kind" = some (.str v) ∧
      v ∈ reservedKinds := by
  exact ⟨rfl, C6_kind_reserved stEmpty (.event mdSample []) 5 none rfl
    (fun r hr => by simp [Message.capturedRecords] at hr; subst hr; rfl)⟩

/-- C7 (amended): for every transmitted message kind the record is
emitted whatever the tick, and — provided no captured field normalizes
onto the reserved key — the `event.internal.rs.tick` attribute is
present with the tick's unary logical time exactly when the tick fits in
a `u64`, and absent when it overflows. -/
theorem C7_tick_attr (st : ModalityIngestState) (msg : Message) (tick : Nat)
    (wall : Option Nat) (hemit : msg.emitsEvent = true)
    (hres : ∀ r, msg.capturedRecords = some r →
      ∀ kv ∈ r, normalizeEventKey kv.1 ≠ "event.internal.rs.tick") :
    ∃ attrs, (handlePacketAttrs st msg tick wall).2 = some attrs ∧
      lookupAttr attrs "event.internal.rs.tick" =
        (if tick ≤ u64Max then some (.logicalTime [tick]) else none) := by
  cases msg with
  | newSpan id md records =>
    refine ⟨_, rfl, ?_⟩
    have hres2 : ∀ kv ∈ (removeRecord (removeRecord records "modality.kind").2
        "modality.span_id").2, normalizeEventKey kv.1 ≠ "event.internal.rs.tick" :=
      fun kv hm => hres records rfl kv
        (removeRecord_snd_subset "modality.kind" records kv
          (removeRecord_snd_subset "modality.span_id" _ kv hm))
    rw [lookupAttr_append, lookupAttr_cons, if_neg (by decide),
        lookupAttr_cons, if_neg (by decide), lookupAttr_cons, if_neg (by decide),
        packCommon_tick_lookup md _ tick wall hres2]
    simp [lookupAttr, Option.or]
  | event md records =>
    refine ⟨_, rfl, ?_⟩
    have hres2 : ∀ kv ∈ (removeRecord records "modality.kind").2,
        normalizeEventKey kv.1 ≠ "event.internal.rs.tick" :=
      fun kv hm => hres records rfl kv
        (removeRecord_snd_subset "modality.kind" records kv hm)
    rw [lookupAttr_cons, if_neg (by decide),
        packCommon_tick_lookup md _ tick wall hres2]
  | enter span =>
    refine ⟨_, rfl, ?_⟩
    cases h : spanNamesGet st.span_names span with
    | none =>
      simp only [h]
      rw [lookupAttr_append, lookupAttr_append, tickAttrs_lookup]
      simp [lookupAttr, List.find?, Option.or]
    | some n =>
      simp only [h]
      rw [lookupAttr_append, lookupAttr_append, tickAttrs_lookup]
      simp [lookupAttr, List.find?, Option.or]
  | exit span =>
    refine ⟨_, rfl, ?_⟩
    cases h : spanNamesGet st.span_names span with
    | none =>
      simp only [h]
      rw [lookupAttr_append, lookupAttr_append, tickAttrs_lookup]
      simp [lookupAttr, List.find?, Option.or]
    | some n =>
      simp only [h]
      rw [lookupAttr_append, lookupAttr_append, tickAttrs_lookup]
      simp [lookupAttr, List.find?, Option.or]
  | record _ _ => simp [Message.emitsEvent] at hemit
  | recordFollowsFrom _ _ => simp [Message.emitsEvent] at hemit
  | close _ => simp [Message.emitsEvent] at hemit
  | idChange _ _ => simp [Message.emitsEvent] at hemit

/-- Witness for C7 on a concrete overflowing and a concrete fitting tick. -/
theorem C7_tick_attr_witness :
    ((Message.event mdSample []).emitsEvent = true) ∧
    (∃ attrs, (handlePacketAttrs stEmpty (.event mdSample []) (2 ^ 64) none).2 =
        some attrs ∧
      lookupAttr attrs "event.internal.rs.tick" = none) ∧
    (∃ attrs, (handlePacketAttrs stEmpty (.event mdSample []) 5 none).2 =
        some attrs ∧
      lookupAttr attrs "event.internal.rs.tick" = some (.logicalTime [5])) := by
  have hres : ∀ r, (Message.event mdSample []).capturedRecords = some r →
      ∀ kv ∈ r, normalizeEventKey kv.1 ≠ "event.internal.rs.tick" := by
    intro r hr kv hm
    simp [Message.capturedRecords] at hr
    subst hr
    simp at hm
  refine ⟨rfl, ?_, ?_⟩
  · have h := C7_tick_attr stEmpty (.event mdSample []) (2 ^ 64) none rfl hres
    rwa [if_neg (by decide)] at h
  · have h := C7_tick_attr stEmpty (.event mdSample []) 5 none rfl hres
    rwa [if_pos (by decide)] at h

end ModalityTracing
